import Mathlib

/-!
Verification of the log-analyzer API layer (`src/application/api.py`):
the merge/deduplication function `API._merge_logs`, the write path
`API.add_logs` with its prune/archive hand-off (`API.__prune_logs`,
`API.__save_pruned_logs`), and the read path `API.get_logs`.

The cache (`TemporalCache`) and database (`SQliteConn`) collaborators are
modelled as oracles: query oracles for reads, and an `Except`-valued
outcome for `prune_cache` (so that a raised exception is a `.error`).
Side effects are recorded as explicit traces of events on the caller's
execution path, printed messages, and scheduled background tasks.
-/

namespace LogAnalyzer

open List (Sublist)

/-- Modelled from the spec: `LogEntry` (the file `src/model/log_entry.py`
is not in the source tree). "A timestamp, a classification tag, a message
body", immutable after construction. Timestamps (`datetime`) are modelled
as naturals; only their total order matters. -/
structure LogEntry where
  timestamp : Nat
  tag : String
  message : String
deriving DecidableEq, Repr

/-- Modelled from the spec: `LogList` (the file `src/model/log_list.py` is
not in the source tree): "an ordered collection of LogEntry (a log list)",
exposed through its `logs` attribute as read by `API.add_logs`. -/
structure LogList where
  logs : List LogEntry
deriving DecidableEq, Repr

/-- The deduplication key `(log.timestamp, log.tag, log.message)` built in
`API._merge_logs` (lines 191 and 198 of `api.py`). -/
def logKey (log : LogEntry) : Nat × String × String :=
  (log.timestamp, log.tag, log.message)

/-- One deduplication loop of `API._merge_logs`: threads the `unique_logs`
set (modelled as the list of keys inserted so far; membership is equality
of tuples, as for a Python set of tuples) and the `combined_logs`
accumulator through a list of logs, appending each log whose key has not
been seen and recording its key. `API._merge_logs` runs this loop twice,
first over `cache_logs`, then over `db_logs`, sharing both accumulators. -/
def dedupLoop :
    List (Nat × String × String) → List LogEntry → List LogEntry →
    List (Nat × String × String) × List LogEntry
  | unique_logs, combined_logs, [] => (unique_logs, combined_logs)
  | unique_logs, combined_logs, log :: rest =>
    if logKey log ∈ unique_logs then
      dedupLoop unique_logs combined_logs rest
    else
      dedupLoop (logKey log :: unique_logs) (combined_logs ++ [log]) rest

/-- The comparison used by the final `combined_logs.sort(key=lambda log:
log.timestamp)` of `API._merge_logs`: Python's `list.sort` with a key is a
stable sort by `key(a) <= key(b)`. -/
def tsLE (a b : LogEntry) : Bool :=
  a.timestamp ≤ b.timestamp

/-- `API._merge_logs` (lines 175-206 of `api.py`): deduplicate
`cache_logs` then `db_logs` by the identity triple, keeping first
occurrences, then stably sort the result by timestamp. -/
def merge_logs (cache_logs db_logs : List LogEntry) : List LogEntry :=
  let s1 := dedupLoop [] [] cache_logs
  let s2 := dedupLoop s1.1 s1.2 db_logs
  s2.2.mergeSort tsLE

/-- The deduplicated concatenation before sorting: the value of
`combined_logs` after both loops of `API._merge_logs` have run. -/
def dedupConcat (cache_logs db_logs : List LogEntry) : List LogEntry :=
  (dedupLoop (dedupLoop [] [] cache_logs).1 (dedupLoop [] [] cache_logs).2
    db_logs).2

/-- Messages printed by the prune path of `api.py`: the informational
`print(f"Pruned logs: ...")` of line 68 and the error-channel
`print(f"Error during pruning: ...")` of line 71. -/
inductive Printed where
  | prunedLogs (logs : List LogEntry)
  | pruneError (msg : String)
deriving DecidableEq, Repr

/-- `API.__prune_logs` (lines 57-71 of `api.py`): calls
`TemporalCache.prune_cache` — modelled by its outcome `r`, an exception
being `.error` — and returns the pruned list; on exception the handler
prints the error and the function falls through, returning Python `None`
(hence the `Option`). The second component is the list of printed
messages. -/
def prune_logs (r : Except String (List LogEntry)) :
    Option (List LogEntry) × List Printed :=
  match r with
  | .ok pruned => (some pruned, [.prunedLogs pruned])
  | .error e => (none, [.pruneError e])

/-- `API.__save_pruned_logs` (lines 73-86 of `api.py`): returns early when
`pruned_logs` is falsy (Python `None` or the empty list), otherwise calls
`db_service.save_logs(pruned_logs)`. The result is the list of
`save_logs` calls made, each with its argument. -/
def save_pruned_logs (pruned_logs : Option (List LogEntry)) :
    List (List LogEntry) :=
  match pruned_logs with
  | none => []
  | some logs => if logs.isEmpty then [] else [logs]

/-- The `log_list : LogEntry | LogList` parameter of `API.add_logs`. -/
inductive Submission where
  | single (entry : LogEntry)
  | batch (log_list : LogList)
deriving DecidableEq, Repr

/-- The entries carried by a submission, in submission order. -/
def Submission.entries : Submission → List LogEntry
  | .single entry => [entry]
  | .batch log_list => log_list.logs

/-- The `assert isinstance(log_list, (LogEntry, LogList))` guard of
`API.add_logs` line 116: both constructors of `Submission` correspond to
one of the two accepted classes, so the check holds in each branch. -/
def submissionAssert : Submission → Bool
  | .single _ => true
  | .batch _ => true

/-- Observable events on the caller's execution path of `API.add_logs`,
in execution order. -/
inductive Event where
  /-- A `self.__cache.add_log(entry)` call. -/
  | addLog (entry : LogEntry)
  /-- `TemporalCache.prune_cache` invoked (inside `self.__prune_logs()`). -/
  | cachePrune
  /-- `background_task.add_task(self.__save_pruned_logs, arg)`. -/
  | scheduleSave (arg : Option (List LogEntry))
  /-- The `JSONResponse` is produced and returned: the caller is
  acknowledged at this point and not before. -/
  | respond
deriving DecidableEq, Repr

/-- The entry added by an `Event.addLog`, if any. -/
def Event.added? : Event → Option LogEntry
  | .addLog entry => some entry
  | _ => none

/-- Outcome of one `API.add_logs` call. -/
structure AddLogsRun where
  /-- Effects on the caller's execution path, in execution order. -/
  callerEvents : List Event
  /-- Messages printed while handling the request. -/
  prints : List Printed
  /-- Arguments of `__save_pruned_logs` tasks deferred to run after the
  response; the task itself only executes via `save_pruned_logs`. -/
  backgroundTasks : List (Option (List LogEntry))
  /-- HTTP status code of the returned `JSONResponse`. -/
  status : Nat
  /-- The `count` field of the returned JSON body. -/
  count : Nat
deriving DecidableEq, Repr

/-- `API.add_logs` (lines 89-135 of `api.py`). For a `LogList`, each entry
is passed to `cache.add_log` in list order and `logs_count = len(logs)`;
for a single `LogEntry` there is one `add_log` call and `logs_count = 1`.
Then line 128 runs `background_task.add_task(self.__save_pruned_logs,
self.__prune_logs())`: the argument expression `self.__prune_logs()` is
evaluated eagerly at this point — on the caller's path, before the
response — and only `__save_pruned_logs` applied to its value is deferred.
Finally the 201 `JSONResponse` is returned. `pruneResult` is the oracle
for the `TemporalCache.prune_cache` outcome. -/
def add_logs (log_list : Submission)
    (pruneResult : Except String (List LogEntry)) : AddLogsRun :=
  let logs : List LogEntry := log_list.entries
  let logs_count : Nat :=
    match log_list with
    | .batch ll => ll.logs.length
    | .single _ => 1
  let pruned := prune_logs pruneResult
  { callerEvents :=
      logs.map Event.addLog ++
        [Event.cachePrune, Event.scheduleSave pruned.1, Event.respond]
    prints := pruned.2
    backgroundTasks := [pruned.1]
    status := 201
    count := logs_count }

/-- Outcome of one `API.get_logs` call. -/
structure GetLogsRun where
  /-- Whether `self.__cache.get_logs(start_time, end_time)` was invoked. -/
  cacheCalled : Bool
  /-- Whether `self.__db_service.get_logs(start_time, end_time)` was
  invoked. -/
  dbCalled : Bool
  /-- HTTP status code of the returned `JSONResponse`. -/
  status : Nat
  /-- The merged logs of the response body. -/
  logs : List LogEntry

/-- `API.get_logs` (lines 137-173 of `api.py`): queries the cache, then
the database, merges both with `_merge_logs`, and returns a 200 response.
The cache and database are modelled as range-query oracles. The function
performs no validation of the range: there is no comparison of
`start_time` with `end_time` anywhere in its body. -/
def get_logs (cacheQuery dbQuery : Nat → Nat → List LogEntry)
    (start_time end_time : Nat) : GetLogsRun :=
  let cache_logs := cacheQuery start_time end_time
  let db_logs := dbQuery start_time end_time
  { cacheCalled := true
    dbCalled := true
    status := 200
    logs := merge_logs cache_logs db_logs }

/-! ### Characterization of the deduplication loops -/

/-- The logs kept by `dedupLoop` (without the accumulator threading):
first occurrences, relative to an initial set of already-seen keys. -/
def keep (seen : List (Nat × String × String)) :
    List LogEntry → List LogEntry
  | [] => []
  | log :: rest =>
    if logKey log ∈ seen then keep seen rest
    else log :: keep (logKey log :: seen) rest

/-- The `unique_logs` set after `dedupLoop` has processed a list. -/
def seenAfter (seen : List (Nat × String × String)) :
    List LogEntry → List (Nat × String × String)
  | [] => seen
  | log :: rest =>
    if logKey log ∈ seen then seenAfter seen rest
    else seenAfter (logKey log :: seen) rest

theorem dedupLoop_eq (l : List LogEntry) :
    ∀ (seen : List (Nat × String × String)) (comb : List LogEntry),
      dedupLoop seen comb l = (seenAfter seen l, comb ++ keep seen l) := by
  induction l with
  | nil => intro seen comb; simp [dedupLoop, seenAfter, keep]
  | cons log rest ih =>
    intro seen comb
    by_cases h : logKey log ∈ seen
    · simp [dedupLoop, seenAfter, keep, h, ih]
    · simp [dedupLoop, seenAfter, keep, h, ih]

theorem mem_seenAfter (l : List LogEntry) :
    ∀ (seen : List (Nat × String × String)) (k : Nat × String × String),
      k ∈ seenAfter seen l ↔ k ∈ seen ∨ k ∈ l.map logKey := by
  induction l with
  | nil => intro seen k; simp [seenAfter]
  | cons log rest ih =>
    intro seen k
    by_cases h : logKey log ∈ seen
    · simp only [seenAfter, if_pos h, ih, List.map_cons, List.mem_cons]
      constructor
      · rintro (hk | hk)
        · exact Or.inl hk
        · exact Or.inr (Or.inr hk)
      · rintro (hk | hk | hk)
        · exact Or.inl hk
        · exact Or.inl (hk ▸ h)
        · exact Or.inr hk
    · simp only [seenAfter, if_neg h, ih, List.map_cons, List.mem_cons]
      tauto

theorem mem_keys_keep (l : List LogEntry) :
    ∀ (seen : List (Nat × String × String)) (k : Nat × String × String),
      k ∈ (keep seen l).map logKey ↔ k ∉ seen ∧ k ∈ l.map logKey := by
  induction l with
  | nil => intro seen k; simp [keep]
  | cons log rest ih =>
    intro seen k
    by_cases h : logKey log ∈ seen
    · by_cases hk : k = logKey log <;>
        simp [keep, h, hk, ih]
    · by_cases hk : k = logKey log <;>
        simp [keep, h, hk, ih]

theorem keys_keep_nodup (l : List LogEntry) :
    ∀ seen : List (Nat × String × String),
      ((keep seen l).map logKey).Nodup := by
  induction l with
  | nil => intro seen; simp [keep]
  | cons log rest ih =>
    intro seen
    by_cases h : logKey log ∈ seen
    · simpa [keep, h] using ih seen
    · simp only [keep, if_neg h, List.map_cons, List.nodup_cons]
      refine ⟨fun hmem => ?_, ih _⟩
      exact ((mem_keys_keep rest _ _).1 hmem).1 (List.mem_cons_self _ _)

theorem keep_sublist (l : List LogEntry) :
    ∀ seen : List (Nat × String × String), Sublist (keep seen l) l := by
  induction l with
  | nil => intro seen; simp [keep]
  | cons log rest ih =>
    intro seen
    by_cases h : logKey log ∈ seen
    · simpa [keep, h] using (ih seen).cons log
    · simpa [keep, h] using (ih (logKey log :: seen)).cons₂ log

theorem keep_append (xs : List LogEntry) :
    ∀ (seen : List (Nat × String × String)) (ys : List LogEntry),
      keep seen (xs ++ ys) = keep seen xs ++ keep (seenAfter seen xs) ys := by
  induction xs with
  | nil => intro seen ys; simp [keep, seenAfter]
  | cons log rest ih =>
    intro seen ys
    by_cases h : logKey log ∈ seen
    · simp [keep, seenAfter, h, ih]
    · simp [keep, seenAfter, h, ih]

theorem dedupConcat_eq_keep (cache_logs db_logs : List LogEntry) :
    dedupConcat cache_logs db_logs = keep [] (cache_logs ++ db_logs) := by
  simp [dedupConcat, dedupLoop_eq, keep_append]

theorem merge_logs_eq (cache_logs db_logs : List LogEntry) :
    merge_logs cache_logs db_logs =
      (dedupConcat cache_logs db_logs).mergeSort tsLE := rfl

theorem tsLE_trans : ∀ a b c : LogEntry, tsLE a b → tsLE b c → tsLE a c := by
  intro a b c hab hbc
  simp only [tsLE, decide_eq_true_eq] at *
  omega

theorem tsLE_total : ∀ a b : LogEntry, tsLE a b || tsLE b a := by
  intro a b
  simp only [tsLE, Bool.or_eq_true, decide_eq_true_eq]
  omega

/-! ### Claim theorems -/

/-- C1: `_merge_logs` deduplicates by the identity triple: its output never
contains two entries with the same (timestamp, tag, message) key; and for
entries `e1`, `e2` with identical triples, merging `[e1]` (the primary,
cache-sourced list) against `[e2]` yields exactly `[e1]` — one element, the
one kept from the primary list. -/
theorem merge_logs_dedup :
    ∀ cache_logs db_logs : List LogEntry,
      ((merge_logs cache_logs db_logs).map logKey).Nodup ∧
      ∀ e1 e2 : LogEntry, logKey e1 = logKey e2 →
        merge_logs [e1] [e2] = [e1] := by
  intro cache_logs db_logs
  constructor
  · rw [merge_logs_eq]
    have h1 : ((dedupConcat cache_logs db_logs).map logKey).Nodup := by
      rw [dedupConcat_eq_keep]
      exact keys_keep_nodup _ _
    exact (((List.mergeSort_perm (dedupConcat cache_logs db_logs)
      tsLE).map logKey).symm).nodup h1
  · intro e1 e2 h
    rw [merge_logs_eq, dedupConcat_eq_keep]
    have hk : keep [] ([e1] ++ [e2]) = [e1] := by
      simp [keep, h]
    rw [hk, List.mergeSort_singleton]

/-- C1 witness: merging a singleton against a content-identical singleton
yields one element, the primary one, with duplicate-free keys. -/
theorem merge_logs_dedup_witness :
    ((merge_logs [⟨1, "INFO", "x"⟩] [⟨1, "INFO", "x"⟩]).map logKey).Nodup ∧
      merge_logs [⟨1, "INFO", "x"⟩] [⟨1, "INFO", "x"⟩] = [⟨1, "INFO", "x"⟩] :=
  ⟨(merge_logs_dedup [⟨1, "INFO", "x"⟩] [⟨1, "INFO", "x"⟩]).1,
    (merge_logs_dedup [] []).2 ⟨1, "INFO", "x"⟩ ⟨1, "INFO", "x"⟩ rfl⟩

/-- C2: the output of `_merge_logs` is non-decreasing by timestamp; the
deduplicated concatenation primary-then-secondary is a sublist of
`cache_logs ++ db_logs` (so it carries the concatenation's relative
order), and the final sort is stable: two surviving entries sharing a
timestamp keep their relative order from that concatenation. -/
theorem merge_logs_sorted_stable :
    ∀ cache_logs db_logs : List LogEntry,
      (merge_logs cache_logs db_logs).Pairwise
        (fun a b => a.timestamp ≤ b.timestamp) ∧
      Sublist (dedupConcat cache_logs db_logs) (cache_logs ++ db_logs) ∧
      ∀ a b : LogEntry, a.timestamp = b.timestamp →
        Sublist [a, b] (dedupConcat cache_logs db_logs) →
        Sublist [a, b] (merge_logs cache_logs db_logs) := by
  intro cache_logs db_logs
  refine ⟨?_, ?_, ?_⟩
  · rw [merge_logs_eq]
    have h := List.sorted_mergeSort tsLE_trans tsLE_total
      (dedupConcat cache_logs db_logs)
    exact h.imp fun hab => by simpa [tsLE] using hab
  · rw [dedupConcat_eq_keep]
    exact keep_sublist _ _
  · intro a b hts hsub
    rw [merge_logs_eq]
    exact List.pair_sublist_mergeSort tsLE_trans tsLE_total
      (by simp [tsLE, hts]) hsub

/-- C2 witness: two distinct entries at timestamp 2 — one from the cache
list, one from the database list — appear in the merged output in
primary-before-secondary order. -/
theorem merge_logs_sorted_stable_witness :
    Sublist [(⟨2, "a", "x"⟩ : LogEntry), ⟨2, "c", "z"⟩]
      (merge_logs [⟨2, "a", "x"⟩] [⟨1, "b", "y"⟩, ⟨2, "c", "z"⟩]) :=
  (merge_logs_sorted_stable [⟨2, "a", "x"⟩]
    [⟨1, "b", "y"⟩, ⟨2, "c", "z"⟩]).2.2 ⟨2, "a", "x"⟩ ⟨2, "c", "z"⟩ rfl
    (by decide)

/-- C6: `_merge_logs` is deterministic — in this embedding it is a pure
function of its two arguments, so two calls on the same inputs coincide
and the inputs are never mutated — it is total on all finite inputs, and
merging two empty lists returns the empty list. -/
theorem merge_logs_deterministic :
    (∀ A B : List LogEntry, merge_logs A B = merge_logs A B) ∧
      merge_logs [] [] = [] :=
  ⟨fun _ _ => rfl, by simp [merge_logs_eq, dedupConcat, dedupLoop]⟩

/-- C9: `_merge_logs` neither loses nor invents log events: every output
element is an element of one of the two input lists, and an identity
triple occurs among the output's keys iff it occurs among the keys of the
first input or of the second. -/
theorem merge_logs_no_loss_no_invention :
    ∀ cache_logs db_logs : List LogEntry,
      (∀ e ∈ merge_logs cache_logs db_logs, e ∈ cache_logs ∨ e ∈ db_logs) ∧
      ∀ k : Nat × String × String,
        k ∈ (merge_logs cache_logs db_logs).map logKey ↔
          k ∈ cache_logs.map logKey ∨ k ∈ db_logs.map logKey := by
  intro cache_logs db_logs
  constructor
  · intro e he
    rw [merge_logs_eq, List.mem_mergeSort, dedupConcat_eq_keep] at he
    have hmem := (keep_sublist (cache_logs ++ db_logs) []).subset he
    simpa using hmem
  · intro k
    rw [merge_logs_eq]
    have hperm := (List.mergeSort_perm (dedupConcat cache_logs db_logs)
      tsLE).map logKey
    rw [hperm.mem_iff, dedupConcat_eq_keep, mem_keys_keep]
    simp

/-- C9 witness: the single element of a merge of one entry against the
empty list is an element of one of the inputs. -/
theorem merge_logs_no_loss_witness :
    (⟨1, "INFO", "x"⟩ : LogEntry) ∈ [(⟨1, "INFO", "x"⟩ : LogEntry)] ∨
      (⟨1, "INFO", "x"⟩ : LogEntry) ∈ ([] : List LogEntry) :=
  (merge_logs_no_loss_no_invention [⟨1, "INFO", "x"⟩] []).1 ⟨1, "INFO", "x"⟩
    (by simp [merge_logs_eq, dedupConcat, dedupLoop])

theorem filterMap_added_map (logs : List LogEntry) :
    List.filterMap (Event.added? ∘ Event.addLog) logs = logs := by
  induction logs with
  | nil => rfl
  | cons a t ih => simp [Event.added?, Function.comp, ih]

/-- C3 counterexample: at the concrete inverted range `start_time = 1 >
end_time = 0`, `get_logs` still invokes the cache's range query and
returns a 200 result — refuting the claim that such a query is rejected
as an input error before any call to the cache. -/
theorem get_logs_inverted_range_not_rejected :
    1 > 0 ∧
      (get_logs (fun _ _ => []) (fun _ _ => []) 1 0).cacheCalled = true ∧
      (get_logs (fun _ _ => []) (fun _ _ => []) 1 0).status = 200 :=
  ⟨Nat.one_pos, rfl, rfl⟩

/-- C3 amended: `get_logs` performs no range validation: for every range,
including those with `end_time < start_time`, it invokes the cache query
and the database query and returns a 200 response whose body is the merge
of the two query results. -/
theorem get_logs_no_range_validation :
    ∀ (cacheQuery dbQuery : Nat → Nat → List LogEntry)
      (start_time end_time : Nat),
      (get_logs cacheQuery dbQuery start_time end_time).cacheCalled = true ∧
      (get_logs cacheQuery dbQuery start_time end_time).dbCalled = true ∧
      (get_logs cacheQuery dbQuery start_time end_time).status = 200 ∧
      (get_logs cacheQuery dbQuery start_time end_time).logs =
        merge_logs (cacheQuery start_time end_time)
          (dbQuery start_time end_time) :=
  fun _ _ _ _ => ⟨rfl, rfl, rfl, rfl⟩

/-- C4: refuted by evaluating `add_logs` at a concrete submission: the
caller-path trace places `cachePrune` strictly before `respond`, because
line 128 evaluates the argument expression `self.__prune_logs()` eagerly
when calling `background_task.add_task` — the prune step runs on the
caller's execution path before the acknowledgment; only the save step is
deferred. -/
theorem add_logs_prunes_before_response :
    (add_logs (Submission.single ⟨1, "INFO", "Test log"⟩)
        (Except.ok [])).callerEvents =
      [Event.addLog ⟨1, "INFO", "Test log"⟩, Event.cachePrune,
        Event.scheduleSave (some []), Event.respond] := rfl

/-- C5: `add_logs` issues one `cache.add_log` call per submitted entry, in
submission order (a `LogList` of n entries produces n calls in list order;
a single `LogEntry` produces one), and the acknowledgment's `count` equals
the number of entries submitted. -/
theorem add_logs_order_count :
    ∀ (sub : Submission) (r : Except String (List LogEntry)),
      (add_logs sub r).callerEvents.filterMap Event.added? = sub.entries ∧
      (add_logs sub r).count = sub.entries.length := by
  intro sub r
  cases sub <;>
    simp [add_logs, Submission.entries, Event.added?, List.filterMap_append,
      filterMap_added_map]

/-- C7: an exception raised by `TemporalCache.prune_cache` during the
prune step is contained: `__prune_logs` returns `None` instead of
propagating, the failure is printed through the error channel, and
`add_logs` still acknowledges the caller with status 201 and the full
count — the response is produced. -/
theorem prune_failure_contained :
    ∀ (e : String) (sub : Submission),
      prune_logs (Except.error e) = (none, [Printed.pruneError e]) ∧
      Printed.pruneError e ∈ (add_logs sub (Except.error e)).prints ∧
      (add_logs sub (Except.error e)).status = 201 ∧
      (add_logs sub (Except.error e)).count = sub.entries.length ∧
      Event.respond ∈ (add_logs sub (Except.error e)).callerEvents := by
  intro e sub
  cases sub <;> simp [prune_logs, add_logs, Submission.entries]

/-- C8: the background task deferred by `add_logs` carries exactly the
prune result, and `__save_pruned_logs` calls `db_service.save_logs` iff
that result is a non-empty list — then exactly once, with exactly the
pruned entries; `some []` and the `None` of a failed prune cause no save
call. -/
theorem save_pruned_iff_nonempty :
    ∀ (sub : Submission) (r : Except String (List LogEntry)),
      (add_logs sub r).backgroundTasks = [(prune_logs r).1] ∧
      (∀ o : Option (List LogEntry),
        save_pruned_logs o ≠ [] ↔ ∃ pruned, o = some pruned ∧ pruned ≠ []) ∧
      (∀ pruned : List LogEntry, pruned ≠ [] →
        save_pruned_logs (some pruned) = [pruned]) ∧
      save_pruned_logs (some []) = [] ∧
      save_pruned_logs none = [] := by
  intro sub r
  refine ⟨rfl, ?_, ?_, rfl, rfl⟩
  · intro o
    match o with
    | none => simp [save_pruned_logs]
    | some pruned =>
      by_cases h : pruned = [] <;> simp [save_pruned_logs, h]
  · intro pruned h
    simp [save_pruned_logs, h]

/-- C8 witness: a successful prune returning one entry leads to exactly
one save call with that entry. -/
theorem save_pruned_iff_nonempty_witness :
    save_pruned_logs (some [⟨1, "INFO", "x"⟩]) = [[⟨1, "INFO", "x"⟩]] :=
  (save_pruned_iff_nonempty (Submission.single ⟨1, "INFO", "x"⟩)
    (Except.ok [⟨1, "INFO", "x"⟩])).2.2.1 [⟨1, "INFO", "x"⟩] (by simp)

/-- C10: for every input of the declared types, the `isinstance` assertion
guarding `add_logs` holds and `add_logs` returns a 201 response: no
submission is rejected based on entry content. -/
theorem add_logs_always_accepts :
    ∀ (sub : Submission) (r : Except String (List LogEntry)),
      submissionAssert sub = true ∧ (add_logs sub r).status = 201 := by
  intro sub r
  cases sub <;> simp [submissionAssert, add_logs]

end LogAnalyzer
